import Mathlib

/-!
Verification development for the SUMO-platoon control layer.

The definitions below are shallow embeddings of the Python sources:
  * `traffic_objects.py`  — `platoon_member`, `platoon`, `vehicle`
  * `simulation_lib.py`   — `get_vehicles_in_direction`, `has_past_subroute`,
                            `freeze_vehicles`, `wait_for_vehicle`, `remove_vehicles`
  * `client.py`           — `traffic_client.onecmd`, `do_speed`, `do_addv`
  * `utilities.py`        — `distance`

Machine floats are modelled by rationals; the square root in
`utilities.distance` is eliminated through the monotone bijection
`Real.sqrt` on nonnegative reals (see `within_radius_iff_dist_le`).
-/

/-- The data a vehicle contributes to a propagation pass: its id string,
its engine coordinates (`traci.vehicle.getPosition`), its route
(`traci.vehicle.getRoute`) and its cached current edge (`self.curr_edge`). -/
structure Vehicle where
  id : String
  pos : ℚ × ℚ
  route : List String
  curr_edge : String
deriving DecidableEq

/-- Squared Euclidean distance: the radicand computed by `utilities.distance`
(`pow(c1[0]-c2[0], 2) + pow(c1[1]-c2[1], 2)`). -/
def dist_sq (c1 c2 : ℚ × ℚ) : ℚ :=
  (c1.1 - c2.1) ^ 2 + (c1.2 - c2.2) ^ 2

/-- Embeds the comparison `utilities.distance(c1, c2) <= radius` from
`platoon_member.get_vehicles_in_radius`.  Since `distance` is the real
square root of `dist_sq`, the comparison holds iff the radius is
nonnegative and `dist_sq` is at most its square
(`within_radius_iff_dist_le` proves this bridge). -/
def within_radius (c1 c2 : ℚ × ℚ) (radius : ℚ) : Bool :=
  decide (0 ≤ radius) && decide (dist_sq c1 c2 ≤ radius ^ 2)

/-- `vehicle.get_remaining_edges`: `route[route.index(self.curr_edge):]`.
(When the current edge is absent Python raises `ValueError`; here the
result is `[]`, and theorems that depend on this add the membership
hypothesis.) -/
def get_remaining_edges (v : Vehicle) : List String :=
  v.route.drop (v.route.indexOf v.curr_edge)

/-- `simulation_lib.has_past_subroute`: the vehicle's route has an
occurrence of its current edge at or after the first occurrence of the
direction's first edge. -/
def has_past_subroute (direction : List String) (v : Vehicle) : Bool :=
  let start_e := direction.headD ""
  if start_e ∈ v.route then
    (v.route.drop (v.route.indexOf start_e)).any (fun e => e = v.curr_edge)
  else
    false

/-- Python `v.id in exclude` in `simulation_lib.get_vehicles_in_direction`:
the only caller (`platoon.propagate`) passes a list of `vehicle`
*objects*, and Python `==` between a string and an object of a class that
defines no `__eq__` is always `False`, so the membership test never
succeeds. -/
def py_str_eq_vehicle (_ : String) (_ : Vehicle) : Bool :=
  false

/-- `simulation_lib.get_vehicles_in_direction`: filters the registry
(`sg.VEHICLES`) by the skip test `v.id in exclude` and the eligibility
condition `direction[0] in v.get_remaining_edges() or
has_past_subroute(direction, v)`. -/
def get_vehicles_in_direction (direction : List String) (registry : List Vehicle)
    (exclude : List Vehicle) : List Vehicle :=
  registry.filter (fun v =>
    !(exclude.any (fun e => py_str_eq_vehicle v.id e)) &&
      (decide (direction.headD "" ∈ get_remaining_edges v) || has_past_subroute direction v))

/-- `platoon_member.get_vehicles_in_radius`: returns the pool vehicles
within the radius of `self` (in pool order) and pops exactly those from
the shared pool `platoon_member.search_vehicles` (the second component is
the pool that remains). -/
def get_vehicles_in_radius (self : Vehicle) (radius : ℚ) (pool : List Vehicle) :
    List Vehicle × List Vehicle :=
  (pool.filter (fun v => within_radius self.pos v.pos radius),
   pool.filter (fun v => !within_radius self.pos v.pos radius))

/-- The platoon tree built by one propagation pass: each node wraps a
vehicle, its children are the `members_in_radius` discovered for it. -/
inductive MTree where
  | node (v : Vehicle) (children : List MTree)

/-- Root vehicle of a platoon-member node. -/
def MTree.rootv : MTree → Vehicle
  | .node v _ => v

/-- Children of a platoon-member node (`self.members_in_radius`). -/
def MTree.children : MTree → List MTree
  | .node _ ts => ts

mutual

/-- Flattened membership of a platoon-member tree, the vehicle of the
node first (`[self] ++ self.get_propagation_members()` in
`platoon.__iter__` / `get_propagation_members`). -/
def MTree.flatten : MTree → List Vehicle
  | .node v ts => v :: flatten_list ts

/-- Flattened membership of a list of platoon-member trees. -/
def flatten_list : List MTree → List Vehicle
  | [] => []
  | t :: ts => t.flatten ++ flatten_list ts

end

/-- The class-level mutable state touched by a propagation pass:
`platoon_member.search_vehicles` (the candidate pool), `platoon.size`
and `platoon.members`. -/
structure PState where
  pool : List Vehicle
  size : Nat
  members : List Vehicle
deriving DecidableEq

/-- The `for m in self.members_in_radius: m.propagate(radius)` loop:
runs the supplied propagation step on each newly claimed vehicle in
order, threading the shared class-level state. -/
def propagate_children (f : Vehicle → PState → MTree × PState) :
    List Vehicle → PState → List MTree × PState
  | [], s => ([], s)
  | v :: rest, s =>
    let p := f v s
    let q := propagate_children f rest p.2
    (p.1 :: q.1, q.2)

/-- `platoon_member.propagate`: gathers the pool vehicles within the
radius (removing them from the pool), skips any gathered vehicle whose id
equals the propagating member's id, claims the rest (incrementing
`platoon.size`, appending to `platoon.members`, creating a child
`platoon_member` each) and then recurses into the new children in order.
The `fuel` argument only bounds the recursion depth, which the Python
recursion bounds by the strictly shrinking pool; every theorem below that
quantifies over `fuel` therefore covers the actual run. -/
def platoon_member_propagate : Nat → Vehicle → ℚ → PState → MTree × PState
  | 0, self, _, s => (.node self [], s)
  | fuel + 1, self, radius, s =>
    let gp := get_vehicles_in_radius self radius s.pool
    let claimed := gp.1.filter (fun v => v.id ≠ self.id)
    let s1 : PState :=
      { pool := gp.2, size := s.size + claimed.length, members := s.members ++ claimed }
    let q := propagate_children (fun v t => platoon_member_propagate fuel v radius t) claimed s1
    (.node self q.1, q.2)

/-- `platoon.propagate`: resets `platoon.size` to 0 and `platoon.members`
to `[focal]`, computes the direction as the focal vehicle's remaining
edges, builds the candidate pool with `get_vehicles_in_direction`
(passing the focal vehicle *object* in `exclude`) and starts the
recursive claim at the focal member.  `pool.length + 1` exceeds the
recursion depth (each deeper level claims at least one vehicle from the
strictly shrinking pool), so the fuel never truncates the recursion. -/
def platoon_propagate (focal : Vehicle) (radius : ℚ) (registry : List Vehicle) :
    MTree × PState :=
  let direction := get_remaining_edges focal
  let pool := get_vehicles_in_direction direction registry [focal]
  platoon_member_propagate (pool.length + 1) focal radius
    { pool := pool, size := 0, members := [focal] }

/-- Follows the words of the specification for claim C3: the candidate
pool is every registered vehicle, excluding the focal vehicle, whose
remaining route intersects the direction edge sequence, or whose current
edge lies on a sub-route of its route beginning at the direction's first
edge and reaching its present edge.  Written for comparison with the
source function `get_vehicles_in_direction`. -/
def get_vehicles_in_direction_per_claim (direction : List String) (focal : Vehicle)
    (registry : List Vehicle) : List Vehicle :=
  registry.filter (fun v =>
    decide (v.id ≠ focal.id) &&
      ((get_remaining_edges v).any (fun e => decide (e ∈ direction))
        || has_past_subroute direction v))

/-- The full mutable state of one `vehicle` object together with the
engine values the code reads and writes for it: the id, the engine's
instantaneous speed (`traci.vehicle.getSpeed`), the engine's maximum
speed (`traci.vehicle.getMaxSpeed` / `setMaxSpeed`), the last commanded
target speed (`self.target_speed`), the target edge, the ensurance flag
and whether a highlight is active. -/
structure VState where
  id : String
  curSpeed : ℚ
  maxSpeed : ℚ
  targetSpeed : ℚ
  targetEdge : String
  ensurance : Bool
  highlighted : Bool
deriving DecidableEq

/-- `vehicle.set_speed`: raises when the requested speed exceeds the
vehicle's maximum speed; otherwise issues `traci.vehicle.setSpeed`
(returned as the `(id, speed)` engine call) and records the commanded
value in `target_speed`. -/
def vehicle_set_speed (speed : ℚ) (s : VState) : Except String (VState × (String × ℚ)) :=
  if s.maxSpeed < speed then
    .error "cannot change speed above max speed"
  else
    .ok ({ s with targetSpeed := speed }, (s.id, speed))

/-- `vehicle.set_max_speed`: raises when the requested maximum is below
the engine's instantaneous speed; otherwise issues
`traci.vehicle.setMaxSpeed`. -/
def vehicle_set_max_speed (m : ℚ) (s : VState) : Except String VState :=
  if m < s.curSpeed then
    .error "cannot change maximum speed below current speed"
  else
    .ok { s with maxSpeed := m }

/-- `platoon_member.__del__`: stops the highlight, restores the max speed
recorded at join time (`self.original_max_speed`) and, when the last
commanded target speed is below 1, commands speed 1.  An exception raised
inside a Python `__del__` is swallowed by the runtime, so on a failing
engine call the effects already performed persist and the remaining
statements are skipped. -/
def member_del (original_max_speed : ℚ) (s : VState) : VState :=
  let s1 := { s with highlighted := false }
  match vehicle_set_max_speed original_max_speed s1 with
  | .error _ => s1
  | .ok s2 =>
    if s2.targetSpeed < 1 then
      match vehicle_set_speed 1 s2 with
      | .error _ => s2
      | .ok p => p.1
    else
      s2

/-- Outcome of the `do_speed` command: the `traci.vehicle.setSpeed`
calls actually issued (in order), whether the command raised, and the
resulting vehicle states. -/
structure SpeedCmdResult where
  calls : List (String × ℚ)
  raised : Bool
  vehicles : List VState
deriving DecidableEq

/-- The `for v in vehicles: v.set_speed(speed)` loop of
`traffic_client.do_speed`: processes the targeted vehicles in order and
stops at the first vehicle whose maximum speed is exceeded, which raises
out of the command. -/
def set_speed_each (speed : ℚ) : List VState → SpeedCmdResult
  | [] => ⟨[], false, []⟩
  | v :: rest =>
    match vehicle_set_speed speed v with
    | .error _ => ⟨[], true, v :: rest⟩
    | .ok (v2, call) =>
      let r := set_speed_each speed rest
      ⟨call :: r.calls, r.raised, v2 :: r.vehicles⟩

/-- `traffic_client.do_speed`: `float(args[0])` either fails (modelled by
`none`, raising `ClientError` before any engine call) or yields the
parsed speed, which is then applied to every targeted vehicle in order. -/
def do_speed (speedArg : Option ℚ) (vehicles : List VState) : SpeedCmdResult :=
  match speedArg with
  | none => ⟨[], true, vehicles⟩
  | some speed => set_speed_each speed vehicles

/-- `freeze_vehicles.__enter__`: for each vehicle in order, records
`vehicle_to_speed[v.id] = v.target_speed` and then commands the creep
speed 1 via `v.set_speed(1)` (which can raise). -/
def freeze_enter : List VState → Except String (List VState × List (String × ℚ))
  | [] => .ok ([], [])
  | v :: rest =>
    match vehicle_set_speed 1 v with
    | .error e => .error e
    | .ok (v2, _) =>
      match freeze_enter rest with
      | .error e => .error e
      | .ok (rest2, snaps) => .ok (v2 :: rest2, (v.id, v.targetSpeed) :: snaps)

/-- `freeze_vehicles.__exit__`: for each vehicle in order, commands the
snapshotted original speed `self.vehicle_to_speed[v.id]` (a missing key
would be a Python `KeyError`, modelled as an error). -/
def freeze_exit (snaps : List (String × ℚ)) : List VState → Except String (List VState)
  | [] => .ok []
  | v :: rest =>
    match snaps.lookup v.id with
    | none => .error "KeyError"
    | some orig =>
      match vehicle_set_speed orig v with
      | .error e => .error e
      | .ok (v2, _) =>
        match freeze_exit snaps rest with
        | .error e => .error e
        | .ok rest2 => .ok (v2 :: rest2)

/-- `simulation_lib.wait_for_vehicle`: runs the freeze (`__enter__`),
then the stepping loop — abstracted as `body`, which returns the vehicle
states after the engine steps plus whether it raised — and then the
restore (`__exit__`), which the `with` statement runs on the normal and
on the error exit of the body alike; a raising body still propagates its
error after the restore, so the body's flag is returned unchanged. -/
def wait_for_vehicle (vs : List VState) (body : List VState → List VState × Bool) :
    Except String (List VState × Bool) :=
  match freeze_enter vs with
  | .error e => .error e
  | .ok (frozen, snaps) =>
    let after := body frozen
    match freeze_exit snaps after.1 with
    | .error e => .error e
    | .ok restored => .ok (restored, after.2)

/-- The client state relevant to the exclusivity handshake:
`self.pause` and the `action_event` (`self.block`, the stepper's
proceed signal). -/
structure ClientState where
  pause : Bool
  block : Bool
deriving DecidableEq

/-- `traffic_client.onecmd`: clears the proceed signal when not paused,
waits for any in-flight step (`self.blocker.wait()`, no state change),
runs the command — modelled as a function from the client state to the
state it leaves plus whether it raised — and re-sets the proceed signal
only on the normal exit (the `except` handlers print and return without
touching `self.block`). -/
def onecmd (cmd : ClientState → ClientState × Bool) (s : ClientState) : ClientState :=
  let s1 := if s.pause then s else { s with block := false }
  let r := cmd s1
  if r.2 then
    r.1
  else if r.1.pause then
    r.1
  else
    { r.1 with block := true }

/-- The process-wide vehicle registry: `sg.VEHICLES` and
`sg.ID_TO_VEHICLE` (a Python dict, whose entries keep insertion
order). -/
structure Registry where
  vehicles : List VState
  idMap : List (String × VState)
deriving DecidableEq

/-- Python dict assignment `d[k] = v`: replaces an existing entry in
place, otherwise appends. -/
def dict_insert (k : String) (v : VState) (m : List (String × VState)) :
    List (String × VState) :=
  if m.any (fun p => p.1 = k) then
    m.map (fun p => if p.1 = k then (k, v) else p)
  else
    m ++ [(k, v)]

/-- Python dict `d.pop(k)`: removes the entry with key `k`. -/
def dict_pop (k : String) (m : List (String × VState)) : List (String × VState) :=
  m.eraseP (fun p => p.1 = k)

/-- The registration step of `traffic_client.do_addv`:
`sg.VEHICLES.append(v)` followed by `sg.ID_TO_VEHICLE[v.id] = v`. -/
def register_vehicle (v : VState) (r : Registry) : Registry :=
  { vehicles := r.vehicles ++ [v], idMap := dict_insert v.id v r.idMap }

/-- `simulation_lib.remove_vehicles`: collects the indices of registered
vehicles the engine no longer reports (`is_vehicle` is false), then pops
them from `sg.VEHICLES` (in reverse index order) and pops their ids from
`sg.ID_TO_VEHICLE`. -/
def remove_vehicles (alive : String → Bool) (r : Registry) : Registry :=
  { vehicles := r.vehicles.filter (fun v => alive v.id),
    idMap := ((r.vehicles.filter (fun v => !alive v.id)).reverse).foldl
      (fun m v => dict_pop v.id m) r.idMap }

/-- The invariant claimed for the registry: the id-to-vehicle map holds
exactly one entry per registered vehicle, keyed by that vehicle's id (by
dict insertion order this is the vehicle list itself, paired with its
ids). -/
def registry_inv (r : Registry) : Prop :=
  r.idMap = r.vehicles.map (fun v => (v.id, v))

/-- Case analysis of `platoon_member.__del__`: the highlight is always
cleared; the max speed is restored exactly when the recorded value is not
below the engine's current speed; the commanded speed becomes 1 exactly
when the restore succeeded, the stored target speed is below 1 and the
restored maximum allows speed 1; no other field changes. -/
theorem member_del_cases (orig : ℚ) (s : VState) :
    member_del orig s =
      if orig < s.curSpeed then
        { s with highlighted := false }
      else if s.targetSpeed < 1 ∧ ¬ orig < 1 then
        { s with highlighted := false, maxSpeed := orig, targetSpeed := 1 }
      else
        { s with highlighted := false, maxSpeed := orig } := by
  by_cases h1 : orig < s.curSpeed
  · simp [member_del, vehicle_set_max_speed, h1]
  · by_cases h2 : s.targetSpeed < 1
    · by_cases h3 : orig < 1
      · simp [member_del, vehicle_set_max_speed, vehicle_set_speed, h1, h2, h3]
      · simp [member_del, vehicle_set_max_speed, vehicle_set_speed, h1, h2, h3]
    · simp [member_del, vehicle_set_max_speed, vehicle_set_speed, h1, h2]

/-- C10 (counterexample): with a recorded pre-join maximum speed of 1/2
and a stored target speed of 0, dropping the member does *not* command
speed 1 — `set_speed(1)` raises because the restored maximum 1/2 is below
1, and the destructor swallows the exception — contradicting the claim
that a target speed below 1 always leads to speed being commanded to 1. -/
theorem c10_counterexample :
    (member_del (1/2) ⟨"v2", 0, 1/2, 0, "E1", true, true⟩).targetSpeed ≠ 1 := by
  norm_num [member_del, vehicle_set_max_speed, vehicle_set_speed]

/-- C10 (amended): dropping a platoon member clears the highlight, restores
the recorded max speed when the engine's current speed does not exceed it,
and touches at most one further field: the commanded target speed, which
becomes 1 exactly when the restore succeeded, the stored target speed is
below 1 and the restored maximum is at least 1; the target edge and the
ensurance flag are never changed. -/
theorem c10_theorem (orig : ℚ) (s : VState) :
    (member_del orig s).targetEdge = s.targetEdge ∧
    (member_del orig s).ensurance = s.ensurance ∧
    (member_del orig s).id = s.id ∧
    (member_del orig s).curSpeed = s.curSpeed ∧
    (member_del orig s).highlighted = false ∧
    (member_del orig s).maxSpeed = (if orig < s.curSpeed then s.maxSpeed else orig) ∧
    (member_del orig s).targetSpeed =
      (if ¬ orig < s.curSpeed ∧ s.targetSpeed < 1 ∧ ¬ orig < 1 then 1 else s.targetSpeed) := by
  by_cases h1 : orig < s.curSpeed
  · simp [member_del, vehicle_set_max_speed, h1]
  · by_cases h2 : s.targetSpeed < 1
    · by_cases h3 : orig < 1
      · simp [member_del, vehicle_set_max_speed, vehicle_set_speed, h1, h2, h3]
      · simp [member_del, vehicle_set_max_speed, vehicle_set_speed, h1, h2, h3]
    · simp [member_del, vehicle_set_max_speed, vehicle_set_speed, h1, h2]

/-- C8 (counterexample): original max speed 10 recorded at join time;
while a member, the max speed was raised to 20 and the vehicle reached
engine speed 15; on drop, `set_max_speed(10)` raises (10 is below the
current speed 15), the destructor swallows the error, and the max speed
remains 20 — the recorded value is not restored. -/
theorem c8_counterexample :
    (member_del 10 ⟨"v3", 15, 20, 15, "E1", true, true⟩).maxSpeed ≠ 10 := by
  norm_num [member_del, vehicle_set_max_speed, vehicle_set_speed]

/-- C8 (amended): dropping a platoon member restores its vehicle's max
speed to the value recorded at join time, whatever max-speed mutations
happened while it was a member, provided the engine's current speed at
drop time does not exceed the recorded value (otherwise the engine
rejects the restore and the mutated maximum persists). -/
theorem c8_theorem (orig : ℚ) (s : VState) (h : s.curSpeed ≤ orig) :
    (member_del orig s).maxSpeed = orig := by
  have h1 : ¬ orig < s.curSpeed := not_lt.mpr h
  by_cases h2 : s.targetSpeed < 1
  · by_cases h3 : orig < 1
    · simp [member_del, vehicle_set_max_speed, vehicle_set_speed, h1, h2, h3]
    · simp [member_del, vehicle_set_max_speed, vehicle_set_speed, h1, h2, h3]
  · simp [member_del, vehicle_set_max_speed, vehicle_set_speed, h1, h2]

/-- C8 (witness): concrete drop at current speed 4, mutated max 20,
recorded value 10 — the max speed is restored to 10. -/
theorem c8_witness :
    (member_del 10 ⟨"v3", 4, 20, 6, "E1", true, true⟩).maxSpeed = 10 :=
  c8_theorem 10 ⟨"v3", 4, 20, 6, "E1", true, true⟩ (by norm_num)

/-- C2 (counterexample): a command that raises while the client is not
paused leaves the stepper's proceed signal cleared: `onecmd` clears
`self.block`, the command raises, the handler returns without re-setting
it — contradicting the claim that the signal is set again on the error
exit. -/
theorem c2_counterexample :
    (onecmd (fun t => (t, true)) ⟨false, true⟩).block = false := by
  rfl

/-- C2 (amended): on the normal exit of a command the proceed signal is
re-set when not paused afterwards; on an error exit the client state is
exactly what the command left (the signal stays cleared unless the
command itself set it), so the stepper resumes only after a later
command completes normally. -/
theorem c2_theorem (cmd : ClientState → ClientState × Bool) (s s2 : ClientState)
    (raised : Bool)
    (hrun : cmd (if s.pause then s else { s with block := false }) = (s2, raised)) :
    (onecmd cmd s).block =
      (if raised then s2.block else if s2.pause then s2.block else true) := by
  simp only [onecmd, hrun]
  cases raised
  · by_cases hp : s2.pause <;> simp [hp]
  · simp

/-- C2 (witness): a command that completes normally while not paused
re-arms the stepper. -/
theorem c2_witness :
    (onecmd (fun t => (t, false)) ⟨false, true⟩).block = true :=
  c2_theorem (fun t => (t, false)) ⟨false, true⟩ ⟨false, false⟩ false rfl

/-- C5 (counterexample): speed 8 requested for a vehicle with max 10
followed by one with max 5: the command raises, but the engine `setSpeed`
call for the first vehicle has already been issued — contradicting the
claim that no engine speed mutation is issued by a failing command. -/
theorem c5_counterexample :
    (do_speed (some 8) [⟨"a", 0, 10, 0, "E1", true, false⟩,
      ⟨"b", 0, 5, 0, "E1", true, false⟩]).raised = true ∧
    (do_speed (some 8) [⟨"a", 0, 10, 0, "E1", true, false⟩,
      ⟨"b", 0, 5, 0, "E1", true, false⟩]).calls ≠ [] := by
  norm_num [do_speed, set_speed_each, vehicle_set_speed]

/-- C5 (amended): a non-numeric speed argument raises before any engine
call; a speed exceeding some targeted vehicle's maximum raises at the
first such vehicle and issues no engine call for it or any vehicle after
it, but the vehicles preceding the first offender have already received
their `setSpeed` calls. -/
theorem c5_theorem (speed : ℚ) (vehicles : List VState) :
    (do_speed none vehicles).calls = [] ∧
    (do_speed none vehicles).raised = true ∧
    (do_speed (some speed) vehicles).raised
      = vehicles.any (fun v => decide (v.maxSpeed < speed)) ∧
    (do_speed (some speed) vehicles).calls
      = (vehicles.takeWhile (fun v => !decide (v.maxSpeed < speed))).map
          (fun v => (v.id, speed)) := by
  refine ⟨rfl, rfl, ?_, ?_⟩ <;>
  · induction vehicles with
    | nil => simp [do_speed, set_speed_each]
    | cons v rest ih =>
      by_cases h : v.maxSpeed < speed <;>
        simp [do_speed, set_speed_each, vehicle_set_speed, h, List.takeWhile_cons] <;>
        simpa [do_speed] using ih

/-- Inserting a key not present in the dict appends the new entry. -/
theorem dict_insert_fresh (k : String) (v : VState) (m : List (String × VState))
    (h : ∀ p ∈ m, p.1 ≠ k) : dict_insert k v m = m ++ [(k, v)] := by
  unfold dict_insert
  rw [if_neg]
  simp only [List.any_eq_true, decide_eq_true_eq, not_exists, not_and]
  exact fun p hp => h p hp

/-- On an association list with distinct keys, popping a key equals
filtering that key out. -/
theorem dict_pop_of_nodup_keys (k : String) (m : List (String × VState))
    (h : (m.map Prod.fst).Nodup) :
    dict_pop k m = m.filter (fun p => p.1 ≠ k) := by
  induction m with
  | nil => rfl
  | cons p rest ih =>
    simp only [List.map_cons, List.nodup_cons] at h
    by_cases hk : p.1 = k
    · rw [dict_pop, List.eraseP_cons_of_pos (by simpa using hk)]
      rw [List.filter_cons_of_neg (by simpa using hk)]
      symm
      rw [List.filter_eq_self]
      intro q hq
      simp only [ne_eq, decide_not, Bool.not_eq_true', decide_eq_false_iff_not,
        Bool.not_eq_false', decide_eq_true_eq]
      intro hqk
      exact h.1 (by rw [hk, ← hqk]; exact List.mem_map_of_mem Prod.fst hq)
    · rw [dict_pop, List.eraseP_cons_of_neg (by simpa using hk)]
      rw [List.filter_cons_of_pos (by simpa using hk)]
      congr 1
      exact ih h.2

/-- Popping a batch of keys (one `dict_pop` per vehicle) from an
association list with distinct keys filters out all those keys. -/
theorem foldl_dict_pop (ds : List VState) (m : List (String × VState))
    (h : (m.map Prod.fst).Nodup) :
    ds.foldl (fun acc d => dict_pop d.id acc) m
      = m.filter (fun p => !(ds.any (fun d => p.1 = d.id))) := by
  induction ds generalizing m with
  | nil => simp
  | cons d rest ih =>
    simp only [List.foldl_cons]
    rw [dict_pop_of_nodup_keys d.id m h,
      ih _ ((List.Sublist.map Prod.fst (List.filter_sublist m)).nodup h),
      List.filter_filter]
    apply List.filter_congr
    intro p _
    cases hx : decide (p.1 = d.id) <;> cases hy : rest.any (fun d2 => decide (p.1 = d2.id)) <;>
      simp_all [decide_not]

/-- C9: registry operations preserve the invariant that the id map holds
exactly one entry per registered vehicle keyed by its id — injection
(`do_addv`) appends the vehicle to both structures, and garbage
collection (`remove_vehicles`) removes every engine-dead vehicle from
both. -/
theorem c9_theorem (r : Registry) (v : VState) (alive : String → Bool)
    (hinv : registry_inv r) (hnd : (r.vehicles.map VState.id).Nodup)
    (hfresh : v.id ∉ r.vehicles.map VState.id) :
    registry_inv (register_vehicle v r) ∧
    (remove_vehicles alive r).vehicles = r.vehicles.filter (fun u => alive u.id) ∧
    registry_inv (remove_vehicles alive r) := by
  refine ⟨?_, rfl, ?_⟩
  · unfold registry_inv register_vehicle
    simp only
    rw [hinv, dict_insert_fresh]
    · simp
    · intro p hp hpk
      obtain ⟨u, hu, hup⟩ := List.mem_map.mp hp
      refine hfresh ?_
      rw [← hpk, ← hup]
      exact List.mem_map_of_mem VState.id hu
  · unfold registry_inv remove_vehicles
    simp only
    rw [hinv, foldl_dict_pop _ _ (by simpa [List.map_map, Function.comp] using hnd),
      List.filter_map]
    congr 1
    apply List.filter_congr
    intro u hu
    have key : ((r.vehicles.filter fun x => !alive x.id).any
        (fun d => decide (u.id = d.id))) = !alive u.id := by
      by_cases ha : alive u.id
      · rw [ha, Bool.not_true, List.any_eq_false]
        intro d hd
        rw [List.mem_filter] at hd
        simp only [decide_eq_true_eq]
        intro hid
        have hdu : d = u := List.inj_on_of_nodup_map hnd hd.1 hu hid.symm
        rw [hdu] at hd
        simp [ha] at hd
      · rw [Bool.not_eq_true] at ha
        rw [ha, Bool.not_false, List.any_eq_true]
        exact ⟨u, List.mem_filter.mpr ⟨hu, by simp [ha]⟩, by simp⟩
    simp only [Function.comp_apply, List.any_reverse, key, Bool.not_not]

/-- C9 (witness): injecting a fresh vehicle and collecting a dead one on
a concrete one-vehicle registry keeps the map and list aligned. -/
theorem c9_witness :
    registry_inv (register_vehicle ⟨"v1", 0, 10, 5, "E2", true, false⟩
      { vehicles := [⟨"v0", 0, 10, 5, "E1", true, false⟩],
        idMap := [("v0", ⟨"v0", 0, 10, 5, "E1", true, false⟩)] }) ∧
    (remove_vehicles (fun _ => false)
      { vehicles := [⟨"v0", 0, 10, 5, "E1", true, false⟩],
        idMap := [("v0", ⟨"v0", 0, 10, 5, "E1", true, false⟩)] }).vehicles
      = [⟨"v0", 0, 10, 5, "E1", true, false⟩].filter (fun u => (fun _ => false) u.id) ∧
    registry_inv (remove_vehicles (fun _ => false)
      { vehicles := [⟨"v0", 0, 10, 5, "E1", true, false⟩],
        idMap := [("v0", ⟨"v0", 0, 10, 5, "E1", true, false⟩)] }) :=
  c9_theorem _ ⟨"v1", 0, 10, 5, "E2", true, false⟩ (fun _ => false)
    (by rfl) (by decide) (by decide)

/-- When every vehicle's max speed allows the creep speed 1, the freeze
succeeds: each vehicle's target speed is snapshotted (before its own
`set_speed(1)`) and every vehicle is set to target speed 1. -/
theorem freeze_enter_ok (vs : List VState) (h1 : ∀ v ∈ vs, 1 ≤ v.maxSpeed) :
    freeze_enter vs = .ok (vs.map (fun v => { v with targetSpeed := 1 }),
      vs.map (fun v => (v.id, v.targetSpeed))) := by
  induction vs with
  | nil => rfl
  | cons v rest ih =>
    have hv : ¬ v.maxSpeed < 1 := not_lt.mpr (h1 v (List.mem_cons_self v rest))
    simp only [freeze_enter, vehicle_set_speed, if_neg hv,
      ih (fun u hu => h1 u (List.mem_cons_of_mem v hu)), List.map_cons]

/-- The snapshot dict built from a registry with distinct ids maps each
vehicle's id to its stored target speed. -/
theorem lookup_snap (vs : List VState) (hnd : (vs.map VState.id).Nodup)
    (v : VState) (hv : v ∈ vs) :
    (vs.map (fun u => (u.id, u.targetSpeed))).lookup v.id = some v.targetSpeed := by
  induction vs with
  | nil => simp at hv
  | cons w rest ih =>
    simp only [List.map_cons, List.nodup_cons] at hnd
    rcases List.mem_cons.mp hv with h | h
    · subst h
      simp [List.lookup_cons]
    · have hne : (v.id == w.id) = false := by
        refine beq_eq_false_iff_ne.mpr (fun he => hnd.1 ?_)
        exact he ▸ List.mem_map_of_mem VState.id h
      simp only [List.map_cons, List.lookup_cons, hne]
      exact ih hnd.2 h

/-- When the snapshot has an entry for every vehicle and each snapshotted
speed is within the vehicle's max speed, the restore loop of
`freeze_vehicles.__exit__` succeeds and commands each vehicle back to its
snapshotted speed. -/
theorem freeze_exit_ok (snaps : List (String × ℚ)) (g : String → ℚ)
    (after : List VState)
    (hsnap : ∀ v ∈ after, snaps.lookup v.id = some (g v.id))
    (hle : ∀ v ∈ after, g v.id ≤ v.maxSpeed) :
    freeze_exit snaps after = .ok (after.map (fun v => { v with targetSpeed := g v.id })) := by
  induction after with
  | nil => rfl
  | cons v rest ih =>
    have hv : ¬ v.maxSpeed < g v.id := not_lt.mpr (hle v (List.mem_cons_self v rest))
    simp only [freeze_exit, hsnap v (List.mem_cons_self v rest), vehicle_set_speed, if_neg hv,
      ih (fun u hu => hsnap u (List.mem_cons_of_mem v hu))
        (fun u hu => hle u (List.mem_cons_of_mem v hu)),
      List.map_cons]

/-- C6: during injection every tracked vehicle's target speed is
snapshotted before the fleet is set to the creep speed 1, and the
snapshot is restored on every exit of the wait loop — the body's raised
flag (normal completion or an engine error mid-loop) passes through
unchanged while the restore still runs.  The body is the stepping loop;
it may rewrite vehicle states arbitrarily as long as it keeps ids and
max speeds (the engine's step does not touch either), ids are distinct,
and the stored target speeds allow the freeze and the restore. -/
theorem c6_theorem (vs : List VState) (body : List VState → List VState × Bool)
    (h1 : ∀ v ∈ vs, 1 ≤ v.maxSpeed)
    (h2 : ∀ v ∈ vs, v.targetSpeed ≤ v.maxSpeed)
    (hnd : (vs.map VState.id).Nodup)
    (hbody : ∀ xs, (body xs).1.map (fun v => (v.id, v.maxSpeed))
      = xs.map (fun v => (v.id, v.maxSpeed))) :
    ∃ restored, wait_for_vehicle vs body
        = .ok (restored, (body (vs.map (fun v => { v with targetSpeed := 1 }))).2) ∧
      restored.map (fun v => (v.id, v.targetSpeed)) = vs.map (fun v => (v.id, v.targetSpeed)) := by
  have hpairs : (body (vs.map (fun v => { v with targetSpeed := 1 }))).1.map
      (fun v => (v.id, v.maxSpeed)) = vs.map (fun v => (v.id, v.maxSpeed)) := by
    rw [hbody]
    simp [List.map_map, Function.comp]
  have hmem : ∀ v ∈ (body (vs.map (fun v => { v with targetSpeed := 1 }))).1,
      ∃ u ∈ vs, u.id = v.id ∧ u.maxSpeed = v.maxSpeed := by
    intro v hv
    have hp : (v.id, v.maxSpeed) ∈ vs.map (fun u => (u.id, u.maxSpeed)) := by
      rw [← hpairs]
      exact List.mem_map_of_mem _ hv
    obtain ⟨u, hu, he⟩ := List.mem_map.mp hp
    exact ⟨u, hu, congrArg Prod.fst he, congrArg Prod.snd he⟩
  have hg : ∀ u ∈ vs,
      ((vs.map (fun w => (w.id, w.targetSpeed))).lookup u.id).getD 0 = u.targetSpeed := by
    intro u hu
    rw [lookup_snap vs hnd u hu]
    rfl
  have hsnap : ∀ v ∈ (body (vs.map (fun v => { v with targetSpeed := 1 }))).1,
      (vs.map (fun w => (w.id, w.targetSpeed))).lookup v.id
        = some (((vs.map (fun w => (w.id, w.targetSpeed))).lookup v.id).getD 0) := by
    intro v hv
    obtain ⟨u, hu, hid, _⟩ := hmem v hv
    rw [← hid, lookup_snap vs hnd u hu]
    rfl
  have hle : ∀ v ∈ (body (vs.map (fun v => { v with targetSpeed := 1 }))).1,
      ((vs.map (fun w => (w.id, w.targetSpeed))).lookup v.id).getD 0 ≤ v.maxSpeed := by
    intro v hv
    obtain ⟨u, hu, hid, hmax⟩ := hmem v hv
    rw [← hid, hg u hu, ← hmax]
    exact h2 u hu
  refine ⟨(body (vs.map (fun v => { v with targetSpeed := 1 }))).1.map
    (fun v => { v with targetSpeed :=
      ((vs.map (fun w => (w.id, w.targetSpeed))).lookup v.id).getD 0 }), ?_, ?_⟩
  · unfold wait_for_vehicle
    rw [freeze_enter_ok vs h1]
    simp only
    rw [freeze_exit_ok (vs.map (fun w => (w.id, w.targetSpeed)))
      (fun i => ((vs.map (fun w => (w.id, w.targetSpeed))).lookup i).getD 0) _ hsnap hle]
  · have hid_list : (body (vs.map (fun v => { v with targetSpeed := 1 }))).1.map VState.id
        = vs.map VState.id := by
      have := congrArg (List.map Prod.fst) hpairs
      simpa [List.map_map, Function.comp] using this
    rw [List.map_map]
    have step1 : ((body (vs.map (fun v => { v with targetSpeed := 1 }))).1.map
        ((fun v => (v.id, v.targetSpeed)) ∘ (fun v =>
          ({ v with targetSpeed :=
            ((vs.map (fun w => (w.id, w.targetSpeed))).lookup v.id).getD 0 } : VState))))
        = (body (vs.map (fun v => { v with targetSpeed := 1 }))).1.map
          (fun v => (v.id, ((vs.map (fun w => (w.id, w.targetSpeed))).lookup v.id).getD 0)) := by
      rfl
    rw [step1]
    have step2 : (body (vs.map (fun v => { v with targetSpeed := 1 }))).1.map
        (fun v => (v.id, ((vs.map (fun w => (w.id, w.targetSpeed))).lookup v.id).getD 0))
        = ((body (vs.map (fun v => { v with targetSpeed := 1 }))).1.map VState.id).map
          (fun i => (i, ((vs.map (fun w => (w.id, w.targetSpeed))).lookup i).getD 0)) := by
      rw [List.map_map]
      rfl
    rw [step2, hid_list, List.map_map]
    apply List.map_congr_left
    intro u hu
    simp only [Function.comp_apply]
    rw [hg u hu]

/-- C6 (witness): one vehicle at target speed 5 and max 10, with a body
that raises: the wait still restores the snapshotted speed. -/
theorem c6_witness :
    ∃ restored : List VState,
      wait_for_vehicle [⟨"v0", 0, 10, 5, "E1", true, false⟩] (fun xs => (xs, true))
          = Except.ok (restored, true) ∧
        restored.map (fun v => (v.id, v.targetSpeed)) = [("v0", (5 : ℚ))] :=
  c6_theorem [⟨"v0", 0, 10, 5, "E1", true, false⟩] (fun xs => (xs, true))
    (by decide) (by decide) (by decide) (fun xs => rfl)

/-- Bridge to the source comparison: `distance(c1,c2) <= radius` with the
real square root equals the rational test `within_radius`. -/
theorem within_radius_iff_dist_le (c1 c2 : ℚ × ℚ) (r : ℚ) :
    within_radius c1 c2 r = true ↔ Real.sqrt ((dist_sq c1 c2 : ℚ) : ℝ) ≤ (r : ℝ) := by
  rw [Real.sqrt_le_iff]
  simp only [within_radius, Bool.and_eq_true, decide_eq_true_eq]
  constructor
  · rintro ⟨h1, h2⟩
    refine ⟨by exact_mod_cast h1, ?_⟩
    have hc : ((dist_sq c1 c2 : ℚ) : ℝ) ≤ ((r ^ 2 : ℚ) : ℝ) := by exact_mod_cast h2
    push_cast at hc
    exact hc
  · rintro ⟨h1, h2⟩
    refine ⟨by exact_mod_cast h1, ?_⟩
    have hc : ((dist_sq c1 c2 : ℚ) : ℝ) ≤ ((r ^ 2 : ℚ) : ℝ) := by push_cast; exact h2
    exact_mod_cast hc

/-- A vehicle is always within a nonnegative radius of itself. -/
theorem within_radius_self (c : ℚ × ℚ) (r : ℚ) (hr : 0 ≤ r) :
    within_radius c c r = true := by
  have h0 : dist_sq c c = 0 := by unfold dist_sq; ring
  simp [within_radius, h0, hr, sq_nonneg]

/-- A subpermutation stays one under a common left append. -/
theorem subperm_append_compat {α : Type} (t : List α) {l1 l2 : List α}
    (h : List.Subperm l1 l2) : List.Subperm (t ++ l1) (t ++ l2) := by
  obtain ⟨w, hw, hs⟩ := h
  exact ⟨t ++ w, List.Perm.append_left t hw, List.Sublist.append_left hs t⟩

/-- A subpermutation is preserved by mapping. -/
theorem subperm_map {α β : Type} (f : α → β) {l1 l2 : List α}
    (h : List.Subperm l1 l2) : List.Subperm (l1.map f) (l2.map f) := by
  obtain ⟨w, hw, hs⟩ := h
  exact ⟨w.map f, hw.map f, hs.map f⟩

/-- The root of the tree produced for a member is that member's vehicle. -/
theorem propagate_root (fuel : Nat) (v : Vehicle) (radius : ℚ) (s : PState) :
    (platoon_member_propagate fuel v radius s).1.rootv = v := by
  cases fuel <;> rfl

/-- The roots of the child trees produced by the recursion loop are
exactly the claimed vehicles handed to it. -/
theorem propagate_children_roots (f : Vehicle → PState → MTree × PState)
    (hf : ∀ v s, (f v s).1.rootv = v) :
    ∀ (vs : List Vehicle) (s : PState),
      ((propagate_children f vs s).1).map MTree.rootv = vs := by
  intro vs
  induction vs with
  | nil => intro s; rfl
  | cons v rest ih =>
    intro s
    simp only [propagate_children, List.map_cons]
    rw [hf, ih]

/-- Claim-step bookkeeping for the recursion loop: the vehicles of the
produced trees together with the final pool are drawn, without
duplication, from the processed members and the starting pool. -/
theorem propagate_children_subperm (f : Vehicle → PState → MTree × PState)
    (hf : ∀ v s, List.Subperm ((f v s).1.flatten ++ (f v s).2.pool) (v :: s.pool)) :
    ∀ (vs : List Vehicle) (s : PState),
      List.Subperm (flatten_list (propagate_children f vs s).1
        ++ (propagate_children f vs s).2.pool) (vs ++ s.pool) := by
  intro vs
  induction vs with
  | nil =>
    intro s
    simp only [propagate_children, flatten_list, List.nil_append]
    exact List.Subperm.refl _
  | cons v rest ih =>
    intro s
    simp only [propagate_children, flatten_list, List.cons_append]
    have step1 : List.Subperm
        ((f v s).1.flatten ++ (flatten_list (propagate_children f rest (f v s).2).1
          ++ (propagate_children f rest (f v s).2).2.pool))
        ((f v s).1.flatten ++ (rest ++ (f v s).2.pool)) :=
      subperm_append_compat _ (ih (f v s).2)
    have step2 : List.Perm ((f v s).1.flatten ++ (rest ++ (f v s).2.pool))
        (rest ++ ((f v s).1.flatten ++ (f v s).2.pool)) := by
      rw [← List.append_assoc, ← List.append_assoc]
      exact List.Perm.append_right _ List.perm_append_comm
    have step3 : List.Subperm (rest ++ ((f v s).1.flatten ++ (f v s).2.pool))
        (rest ++ (v :: s.pool)) := subperm_append_compat _ (hf v s)
    have step4 : List.Perm (rest ++ (v :: s.pool)) (v :: (rest ++ s.pool)) := List.perm_middle
    rw [List.append_assoc]
    exact ((step1.trans step2.subperm).trans step3).trans step4.subperm

/-- One propagation step never duplicates: the flattened tree of a member
together with the remaining pool is drawn, without duplication, from the
member itself and the pool it started from. -/
theorem propagate_subperm (fuel : Nat) :
    ∀ (self : Vehicle) (radius : ℚ) (s : PState),
      List.Subperm ((platoon_member_propagate fuel self radius s).1.flatten
        ++ (platoon_member_propagate fuel self radius s).2.pool) (self :: s.pool) := by
  induction fuel with
  | zero =>
    intro self radius s
    simp only [platoon_member_propagate, get_vehicles_in_radius, MTree.flatten, flatten_list, List.cons_append,
      List.nil_append]
    exact List.Subperm.refl _
  | succ n ih =>
    intro self radius s
    simp only [platoon_member_propagate, get_vehicles_in_radius, MTree.flatten, List.cons_append]
    rw [List.subperm_cons]
    refine (propagate_children_subperm _ (fun v t => ih v radius t) _ _).trans ?_
    refine List.Subperm.trans ?_
      (List.filter_append_perm (fun v => within_radius self.pos v.pos radius) s.pool).subperm
    exact (List.Sublist.append_right (List.filter_sublist _) _).subperm

/-- Size/membership bookkeeping for the recursion loop: `platoon.size`
and `platoon.members` grow in lockstep, and the flattened trees add one
vehicle per processed member beyond the members appended. -/
theorem propagate_children_counts (f : Vehicle → PState → MTree × PState)
    (hfS : ∀ v s, (f v s).2.size + s.members.length = s.size + (f v s).2.members.length)
    (hfM : ∀ v s, (f v s).1.flatten.length + s.members.length = 1 + (f v s).2.members.length) :
    ∀ (vs : List Vehicle) (s : PState),
      ((propagate_children f vs s).2.size + s.members.length
        = s.size + (propagate_children f vs s).2.members.length)
      ∧ ((flatten_list (propagate_children f vs s).1).length + s.members.length
          = vs.length + (propagate_children f vs s).2.members.length) := by
  intro vs
  induction vs with
  | nil =>
    intro s
    simp [propagate_children, flatten_list]
  | cons v rest ih =>
    intro s
    simp only [propagate_children, flatten_list, List.length_append, List.length_cons]
    have h1 := hfS v s
    have h2 := hfM v s
    have h3 := (ih (f v s).2).1
    have h4 := (ih (f v s).2).2
    omega

/-- Size/membership bookkeeping for one member's propagation:
`platoon.size` advances exactly as `platoon.members` grows, and the
flattened tree holds the member itself plus every vehicle appended. -/
theorem propagate_counts (fuel : Nat) :
    ∀ (self : Vehicle) (radius : ℚ) (s : PState),
      ((platoon_member_propagate fuel self radius s).2.size + s.members.length
        = s.size + (platoon_member_propagate fuel self radius s).2.members.length)
      ∧ ((platoon_member_propagate fuel self radius s).1.flatten.length + s.members.length
          = 1 + (platoon_member_propagate fuel self radius s).2.members.length) := by
  induction fuel with
  | zero =>
    intro self radius s
    simp [platoon_member_propagate, MTree.flatten, flatten_list]
  | succ n ih =>
    intro self radius s
    simp only [platoon_member_propagate, get_vehicles_in_radius, MTree.flatten, List.length_cons]
    have hc := propagate_children_counts (fun v t => platoon_member_propagate n v radius t)
      (fun v t => (ih v radius t).1) (fun v t => (ih v radius t).2)
      ((s.pool.filter (fun v => within_radius self.pos v.pos radius)).filter
        (fun v => v.id ≠ self.id))
      { pool := s.pool.filter (fun v => !within_radius self.pos v.pos radius),
        size := s.size + ((s.pool.filter (fun v => within_radius self.pos v.pos radius)).filter
          (fun v => v.id ≠ self.id)).length,
        members := s.members
          ++ (s.pool.filter (fun v => within_radius self.pos v.pos radius)).filter
            (fun v => v.id ≠ self.id) }
    simp only [List.length_append] at hc
    omega

/-- C4 (counterexample): the spec scenario — focal F with direction
[E1,E2,E3], candidate A on E2 at distance 5, candidate B on E5 at
distance 3, radius 10.  Only A is claimed, yet the pass leaves
`platoon.size = 1`, not 2: `platoon.propagate` resets the counter to 0
while seeding `platoon.members` with the focal vehicle, so the counter
excludes the focal vehicle while the membership list (length 2) includes
it. -/
theorem c4_counterexample :
    (platoon_propagate ⟨"v0", (2, 3), ["E1", "E2", "E3"], "E1"⟩ 10
      [⟨"v0", (2, 3), ["E1", "E2", "E3"], "E1"⟩, ⟨"v1", (7, 3), ["E1", "E2", "E3"], "E2"⟩,
        ⟨"v2", (5, 3), ["E5"], "E5"⟩]).2.size = 1 ∧
    (platoon_propagate ⟨"v0", (2, 3), ["E1", "E2", "E3"], "E1"⟩ 10
      [⟨"v0", (2, 3), ["E1", "E2", "E3"], "E1"⟩, ⟨"v1", (7, 3), ["E1", "E2", "E3"], "E2"⟩,
        ⟨"v2", (5, 3), ["E5"], "E5"⟩]).2.members.length = 2 := by
  have hpool : get_vehicles_in_direction
      (get_remaining_edges ⟨"v0", (2, 3), ["E1", "E2", "E3"], "E1"⟩)
      [⟨"v0", (2, 3), ["E1", "E2", "E3"], "E1"⟩, ⟨"v1", (7, 3), ["E1", "E2", "E3"], "E2"⟩,
        ⟨"v2", (5, 3), ["E5"], "E5"⟩]
      [⟨"v0", (2, 3), ["E1", "E2", "E3"], "E1"⟩]
      = [⟨"v0", (2, 3), ["E1", "E2", "E3"], "E1"⟩, ⟨"v1", (7, 3), ["E1", "E2", "E3"], "E2"⟩] := by
    decide
  have hw0 : within_radius ((2 : ℚ), (3 : ℚ)) ((2 : ℚ), (3 : ℚ)) 10 = true := by
    norm_num [within_radius, dist_sq]
  have hw1 : within_radius ((2 : ℚ), (3 : ℚ)) ((7 : ℚ), (3 : ℚ)) 10 = true := by
    norm_num [within_radius, dist_sq]
  simp only [platoon_propagate, hpool]
  norm_num [platoon_member_propagate, get_vehicles_in_radius, propagate_children,
    List.filter_cons, hw0, hw1, MTree.flatten, flatten_list]
  simp

/-- C4 (amended): after every propagation pass `platoon.size` counts only
the claimed vehicles — it equals the flat membership list length minus
one, the focal vehicle being in the list but not in the counter — and the
flattened tree size equals the membership list length; a pass that claims
exactly one vehicle besides the focal therefore leaves size = 1 with a
membership list of length 2. -/
theorem c4_theorem (focal : Vehicle) (radius : ℚ) (registry : List Vehicle) :
    (platoon_propagate focal radius registry).2.size + 1
        = (platoon_propagate focal radius registry).2.members.length ∧
      (platoon_propagate focal radius registry).1.flatten.length
        = (platoon_propagate focal radius registry).2.members.length := by
  have h := propagate_counts
    ((get_vehicles_in_direction (get_remaining_edges focal) registry [focal]).length + 1)
    focal radius
    { pool := get_vehicles_in_direction (get_remaining_edges focal) registry [focal],
      size := 0, members := [focal] }
  simp only [List.length_cons, List.length_nil] at h
  simp only [platoon_propagate]
  exact ⟨by omega, by omega⟩

/-- C7: a candidate still in the pool when a member gathers, other than
the member's own vehicle, becomes one of that member's children exactly
when its Euclidean distance from the member is at most the radius — the
threshold is inclusive. -/
theorem c7_theorem (fuel : Nat) (self v : Vehicle) (radius : ℚ) (s : PState)
    (hv : v ∈ s.pool) (hid : v.id ≠ self.id) :
    (v ∈ ((platoon_member_propagate (fuel + 1) self radius s).1.children.map MTree.rootv)) ↔
      Real.sqrt ((dist_sq self.pos v.pos : ℚ) : ℝ) ≤ (radius : ℝ) := by
  simp only [platoon_member_propagate, get_vehicles_in_radius, MTree.children]
  rw [propagate_children_roots _ (fun w t => propagate_root fuel w radius t)]
  rw [List.mem_filter, List.mem_filter, ← within_radius_iff_dist_le]
  constructor
  · rintro ⟨⟨_, hw⟩, _⟩
    exact hw
  · intro hw
    exact ⟨⟨hv, hw⟩, by simpa using hid⟩

/-- C7 (witness): a candidate at distance exactly 5 — positions (2,3) and
(5,7) — with radius 5 is claimed: the inclusive boundary. -/
theorem c7_witness :
    ((⟨"v1", (5, 7), [], ""⟩ : Vehicle) ∈ ((platoon_member_propagate 1 ⟨"v0", (2, 3), [], ""⟩ 5
        { pool := [⟨"v1", (5, 7), [], ""⟩], size := 0, members := [] }).1.children.map
          MTree.rootv)) ↔
      Real.sqrt ((dist_sq ((2 : ℚ), (3 : ℚ)) ((5 : ℚ), (7 : ℚ)) : ℚ) : ℝ) ≤ ((5 : ℚ) : ℝ) :=
  c7_theorem 0 ⟨"v0", (2, 3), [], ""⟩ ⟨"v1", (5, 7), [], ""⟩ 5
    { pool := [⟨"v1", (5, 7), [], ""⟩], size := 0, members := [] } (by decide) (by decide)

/-- With a nonnegative radius, splitting a pool at the focal member —
gathered-and-claimed versus left behind — permutes the pool purged of the
focal id: every pool vehicle carrying the focal id (the focal vehicle
itself, which the broken `exclude` left in the pool) is gathered at
distance 0 and skipped by the claim loop. -/
theorem claimed_pool_perm (pool : List Vehicle) (focal : Vehicle) (radius : ℚ)
    (hr : 0 ≤ radius) (hfi : ∀ v ∈ pool, v.id = focal.id → v = focal) :
    List.Perm ((pool.filter (fun v => within_radius focal.pos v.pos radius)).filter
        (fun v => v.id ≠ focal.id)
      ++ pool.filter (fun v => !within_radius focal.pos v.pos radius))
      (pool.filter (fun v => v.id ≠ focal.id)) := by
  have hclaimed : (pool.filter (fun v => within_radius focal.pos v.pos radius)).filter
      (fun v => v.id ≠ focal.id)
      = (pool.filter (fun v => v.id ≠ focal.id)).filter
          (fun v => within_radius focal.pos v.pos radius) := by
    rw [List.filter_filter, List.filter_filter]
    apply List.filter_congr
    intro v _
    exact Bool.and_comm _ _
  have hpool2 : pool.filter (fun v => !within_radius focal.pos v.pos radius)
      = (pool.filter (fun v => v.id ≠ focal.id)).filter
          (fun v => !within_radius focal.pos v.pos radius) := by
    rw [List.filter_filter]
    apply List.filter_congr
    intro v hv
    by_cases hw : within_radius focal.pos v.pos radius = true
    · simp [hw]
    · have hne : v.id ≠ focal.id := by
        intro he
        exact hw (by rw [hfi v hv he]; exact within_radius_self focal.pos radius hr)
      simp [hw, hne]
  rw [hclaimed, hpool2]
  exact List.filter_append_perm _ _

/-- Refined claim-step accounting at the focal member: with a nonnegative
radius the pass draws, without duplication, from the focal vehicle and
the pool purged of the focal id. -/
theorem propagate_subperm_refined (fuel : Nat) (focal : Vehicle) (radius : ℚ) (s : PState)
    (hr : 0 ≤ radius) (hfi : ∀ v ∈ s.pool, v.id = focal.id → v = focal) :
    List.Subperm
      ((platoon_member_propagate (fuel + 1) focal radius s).1.flatten
        ++ (platoon_member_propagate (fuel + 1) focal radius s).2.pool)
      (focal :: s.pool.filter (fun v => v.id ≠ focal.id)) := by
  simp only [platoon_member_propagate, get_vehicles_in_radius, MTree.flatten, List.cons_append]
  rw [List.subperm_cons]
  refine (propagate_children_subperm _ (fun v t => propagate_subperm fuel v radius t) _ _).trans
    ?_
  exact (claimed_pool_perm s.pool focal radius hr hfi).subperm

/-- C1 (amended): for every propagation pass with a nonnegative radius,
over a registry with distinct ids containing the focal vehicle: no
vehicle id appears twice in the flattened membership of the resulting
tree, and at pass end the member ids are disjoint from the pool's
remaining contents.  (A vehicle is removed from the shared pool the
instant it is gathered; the nonnegativity requirement exists because the
focal vehicle wrongly enters the pool — the `exclude` argument compares
ids against vehicle objects — and only a nonnegative radius guarantees
it is gathered, and thereby removed, at the first step.) -/
theorem c1_theorem (focal : Vehicle) (radius : ℚ) (registry : List Vehicle)
    (hr : 0 ≤ radius) (hnd : (registry.map Vehicle.id).Nodup) (hfm : focal ∈ registry) :
    (((platoon_propagate focal radius registry).1.flatten).map Vehicle.id).Nodup ∧
    ∀ v ∈ (platoon_propagate focal radius registry).2.pool,
      v.id ∉ ((platoon_propagate focal radius registry).1.flatten).map Vehicle.id := by
  have hfi : ∀ v ∈ get_vehicles_in_direction (get_remaining_edges focal) registry [focal],
      v.id = focal.id → v = focal := by
    intro v hv he
    exact List.inj_on_of_nodup_map hnd ((List.filter_sublist registry).subset hv) hfm he
  have hsp := propagate_subperm_refined
    (get_vehicles_in_direction (get_remaining_edges focal) registry [focal]).length
    focal radius
    { pool := get_vehicles_in_direction (get_remaining_edges focal) registry [focal],
      size := 0, members := [focal] } hr hfi
  have hmap := subperm_map Vehicle.id hsp
  rw [List.map_append, List.map_cons] at hmap
  have hTnd : (focal.id :: ((get_vehicles_in_direction (get_remaining_edges focal) registry
      [focal]).filter (fun v => v.id ≠ focal.id)).map Vehicle.id).Nodup := by
    rw [List.nodup_cons]
    constructor
    · intro hmem
      obtain ⟨v, hv, hve⟩ := List.mem_map.mp hmem
      rw [List.mem_filter] at hv
      exact absurd hve (by simpa using hv.2)
    · refine List.Sublist.nodup (List.Sublist.map Vehicle.id ?_) hnd
      exact ((List.filter_sublist _).trans (List.filter_sublist registry))
  have hbig : (((platoon_propagate focal radius registry).1.flatten).map Vehicle.id
      ++ ((platoon_propagate focal radius registry).2.pool).map Vehicle.id).Nodup := by
    obtain ⟨w, hw, hsub⟩ := hmap
    exact hw.nodup (List.Sublist.nodup hsub hTnd)
  rw [List.nodup_append] at hbig
  refine ⟨hbig.1, ?_⟩
  intro v hv hvm
  exact hbig.2.2 hvm (List.mem_map_of_mem Vehicle.id hv)

/-- C1 (witness): a two-vehicle registry, radius 5 — the pass claims the
other vehicle once and the remaining pool shares no id with the tree. -/
theorem c1_witness :
    (((platoon_propagate ⟨"v0", (2, 3), ["E1"], "E1"⟩ 5
        [⟨"v0", (2, 3), ["E1"], "E1"⟩, ⟨"v1", (5, 7), ["E1"], "E1"⟩]).1.flatten).map
          Vehicle.id).Nodup ∧
    ∀ v ∈ (platoon_propagate ⟨"v0", (2, 3), ["E1"], "E1"⟩ 5
        [⟨"v0", (2, 3), ["E1"], "E1"⟩, ⟨"v1", (5, 7), ["E1"], "E1"⟩]).2.pool,
      v.id ∉ ((platoon_propagate ⟨"v0", (2, 3), ["E1"], "E1"⟩ 5
        [⟨"v0", (2, 3), ["E1"], "E1"⟩, ⟨"v1", (5, 7), ["E1"], "E1"⟩]).1.flatten).map
          Vehicle.id :=
  c1_theorem ⟨"v0", (2, 3), ["E1"], "E1"⟩ 5
    [⟨"v0", (2, 3), ["E1"], "E1"⟩, ⟨"v1", (5, 7), ["E1"], "E1"⟩]
    (by decide) (by decide) (by decide)

/-- C1 (counterexample): with radius −1 the focal vehicle — wrongly in
the candidate pool, since the `exclude` test compares its id string
against a vehicle object — is never gathered (nothing is within a
negative radius), so at pass end it sits in the remaining pool while its
id is in the flattened membership: the claimed disjointness fails. -/
theorem c1_counterexample :
    (⟨"v0", (2, 3), ["E1"], "E1"⟩ : Vehicle) ∈
        (platoon_propagate ⟨"v0", (2, 3), ["E1"], "E1"⟩ (-1)
          [⟨"v0", (2, 3), ["E1"], "E1"⟩]).2.pool ∧
      "v0" ∈ ((platoon_propagate ⟨"v0", (2, 3), ["E1"], "E1"⟩ (-1)
          [⟨"v0", (2, 3), ["E1"], "E1"⟩]).1.flatten).map Vehicle.id := by
  have hpool : get_vehicles_in_direction
      (get_remaining_edges ⟨"v0", (2, 3), ["E1"], "E1"⟩)
      [⟨"v0", (2, 3), ["E1"], "E1"⟩] [⟨"v0", (2, 3), ["E1"], "E1"⟩]
      = [⟨"v0", (2, 3), ["E1"], "E1"⟩] := by
    decide
  have hw : within_radius ((2 : ℚ), (3 : ℚ)) ((2 : ℚ), (3 : ℚ)) (-1) = false := by
    norm_num [within_radius]
  simp only [platoon_propagate, hpool]
  norm_num [platoon_member_propagate, get_vehicles_in_radius, propagate_children,
    List.filter_cons, hw, MTree.flatten, flatten_list]

/-- C3 (counterexample): focal F (route [E1,E2], on E1) and W (route
[E0,E2], on E0).  The claim's pool is [W]: F is excluded as the focal
vehicle, and the remaining route of W intersects the direction [E1,E2]
at E2.  The code's pool is [F]: the exclusion never fires (ids are
compared against vehicle objects), F's remaining route contains the
direction's first edge, while W is rejected because only the *first*
direction edge is tested and E1 is not on W's route at all. -/
theorem c3_counterexample :
    get_vehicles_in_direction
        (get_remaining_edges ⟨"v0", (2, 3), ["E1", "E2"], "E1"⟩)
        [⟨"v0", (2, 3), ["E1", "E2"], "E1"⟩, ⟨"v1", (5, 7), ["E0", "E2"], "E0"⟩]
        [⟨"v0", (2, 3), ["E1", "E2"], "E1"⟩]
      = [⟨"v0", (2, 3), ["E1", "E2"], "E1"⟩] ∧
    get_vehicles_in_direction_per_claim
        (get_remaining_edges ⟨"v0", (2, 3), ["E1", "E2"], "E1"⟩)
        ⟨"v0", (2, 3), ["E1", "E2"], "E1"⟩
        [⟨"v0", (2, 3), ["E1", "E2"], "E1"⟩, ⟨"v1", (5, 7), ["E0", "E2"], "E0"⟩]
      = [⟨"v1", (5, 7), ["E0", "E2"], "E0"⟩] := by
  decide

/-- C3 (amended): the candidate pool is the registry filtered by — the
direction's *first* edge among the vehicle's remaining edges, or a past
sub-route beginning at that first edge reaching the vehicle's current
edge; the `exclude` argument removes nothing (Python compares each id
string against vehicle objects), so in particular the focal vehicle
itself enters its own pool whenever its current edge is on its route. -/
theorem c3_theorem (direction : List String) (registry : List Vehicle)
    (exclude : List Vehicle) (focal : Vehicle) (hm : focal ∈ registry)
    (hc : focal.curr_edge ∈ focal.route) :
    get_vehicles_in_direction direction registry exclude
      = registry.filter (fun v =>
          decide (direction.headD "" ∈ get_remaining_edges v)
            || has_past_subroute direction v) ∧
    focal ∈ get_vehicles_in_direction (get_remaining_edges focal) registry [focal] := by
  have hfilter : ∀ (d : List String) (ex : List Vehicle),
      get_vehicles_in_direction d registry ex
        = registry.filter (fun v =>
            decide (d.headD "" ∈ get_remaining_edges v) || has_past_subroute d v) := by
    intro d ex
    unfold get_vehicles_in_direction
    apply List.filter_congr
    intro v _
    have hany : (ex.any fun e => py_str_eq_vehicle v.id e) = false := by
      induction ex with
      | nil => rfl
      | cons e rest ih => simp [py_str_eq_vehicle, ih]
    rw [hany]
    rfl
  refine ⟨hfilter direction exclude, ?_⟩
  rw [hfilter (get_remaining_edges focal) [focal]]
  rw [List.mem_filter]
  refine ⟨hm, ?_⟩
  have hne : get_remaining_edges focal ≠ [] := by
    unfold get_remaining_edges
    intro h
    have hlt : focal.route.indexOf focal.curr_edge < focal.route.length :=
      List.indexOf_lt_length.mpr hc
    rw [List.drop_eq_nil_iff] at h
    omega
  cases hrem : get_remaining_edges focal with
  | nil => exact absurd hrem hne
  | cons a as => simp [hrem]

/-- C3 (witness): a focal vehicle on its own route is a member of the
pool built for its own pass, and the pool equation holds at a concrete
direction and registry. -/
theorem c3_witness :
    (get_vehicles_in_direction ["E1"] [⟨"v0", (2, 3), ["E1"], "E1"⟩]
        [⟨"v9", (5, 7), ["E1"], "E1"⟩]
      = [⟨"v0", (2, 3), ["E1"], "E1"⟩].filter (fun v =>
          decide (["E1"].headD "" ∈ get_remaining_edges v)
            || has_past_subroute ["E1"] v)) ∧
    (⟨"v0", (2, 3), ["E1"], "E1"⟩ : Vehicle) ∈ get_vehicles_in_direction
      (get_remaining_edges ⟨"v0", (2, 3), ["E1"], "E1"⟩)
      [⟨"v0", (2, 3), ["E1"], "E1"⟩] [⟨"v0", (2, 3), ["E1"], "E1"⟩] :=
  c3_theorem ["E1"] [⟨"v0", (2, 3), ["E1"], "E1"⟩] [⟨"v9", (5, 7), ["E1"], "E1"⟩]
    ⟨"v0", (2, 3), ["E1"], "E1"⟩ (by decide) (by decide)
